import Mathlib

/-!
A verification development for the color-palette extraction pipeline implemented in
src/backend/image_to_palette.py of the BitNBuild repository.

The function extract_palette decodes an image, resizes it, flattens it to a list of
RGB pixel samples, deduplicates the samples to bound the cluster count, fits a
k-means clustering (scikit-learn, random_state 42, n_init 10, max_iter 300) over the
full sample list, ranks clusters by population, and formats each cluster centroid as
hex, rgb and hsl strings together with its population as a frequency field.

The external collaborators (PIL image decoding, scikit-learn KMeans, the
colour-science RGB to HSL conversion) are modelled as follows: the decode step is an
Option-valued input (none models a decode failure), k-means is a parameter returning
an optional KMeansResult constrained by the contract KMeansResult.Valid, and the
RGB to HSL transform is transcribed from the colour-science cylindrical formulas
over rationals.  Machine floating point is modelled by exact rational arithmetic.
-/

namespace ImageToPalette

/-- A pixel sample: one (R, G, B) channel triple read from the decoded, resized
image (line 15 of the source, np.array(img).reshape(-1, 3)). -/
abbrev Pixel := ℕ × ℕ × ℕ

/-- The keyword arguments the source passes to the KMeans constructor on
lines 27-32: n_clusters, random_state=42, n_init=10, max_iter=300. -/
structure KMeansParams where
  n_clusters : ℕ
  random_state : ℕ
  n_init : ℕ
  max_iter : ℕ
  deriving DecidableEq

/-- The outputs of a fitted KMeans model used by the source: cluster_centers_
(floating-point RGB triples, modelled as rationals) and labels_ (one cluster index
per input sample). -/
structure KMeansResult where
  centers : List (ℚ × ℚ × ℚ)
  labels : List ℕ
  deriving DecidableEq

/-- An abstract k-means implementation (the scikit-learn collaborator): from the
constructor parameters and the sample list to an optional fit result, none modelling
an exception raised by fit (for example fewer samples than clusters). -/
abbrev KMeansImpl := KMeansParams → List Pixel → Option KMeansResult

/-- The contract a successful scikit-learn fit satisfies for this pipeline:
k centers, one label per input sample, labels in range, no empty cluster
(scikit-learn relocates empty clusters during Lloyd iterations), and every centroid
channel within [0, 255] (each centroid is a mean of samples whose channels lie in
[0, 255]). -/
def KMeansResult.Valid (res : KMeansResult) (points : List Pixel) (k : ℕ) : Prop :=
  res.centers.length = k ∧
  res.labels.length = points.length ∧
  (∀ l ∈ res.labels, l < k) ∧
  (∀ j ∈ List.range k, j ∈ res.labels) ∧
  (∀ c ∈ res.centers,
    0 ≤ c.1 ∧ c.1 ≤ 255 ∧ 0 ≤ c.2.1 ∧ c.2.1 ≤ 255 ∧ 0 ≤ c.2.2 ∧ c.2.2 ≤ 255)

/-- Lines 21 and 24 of the source: actual_num_colors is first
min(num_colors, len(unique_pixels), 15) and then floored by max(3, -). -/
def actualNumColors (num_colors distinct : ℕ) : ℕ :=
  max 3 (min num_colors (min distinct 15))

/-- np.bincount (line 38): occurrence counts for the values 0 .. max(labels); the
empty array yields the empty count list. -/
def bincount (labels : List ℕ) : List ℕ :=
  if labels.isEmpty then []
  else (List.range (labels.foldr max 0 + 1)).map fun j => labels.count j

/-- The comparison used by np.argsort on the count array: ascending by value, with
ties kept in ascending index order (the count array here has at most 16 entries, so
numpy sorts it with its stable insertion sort). -/
def argsortLe (v : List ℕ) (i j : ℕ) : Prop :=
  v.getD i 0 < v.getD j 0 ∨ (v.getD i 0 = v.getD j 0 ∧ i ≤ j)

instance (v : List ℕ) : DecidableRel (argsortLe v) := fun i j => by
  unfold argsortLe; infer_instance

/-- np.argsort(v): the indices of v stably sorted so that v is ascending along
them. -/
def argsort (v : List ℕ) : List ℕ :=
  List.insertionSort (argsortLe v) (List.range v.length)

/-- Line 41 of the source: sorted_indices = np.argsort(color_counts)[::-1]. -/
def sortedIndices (v : List ℕ) : List ℕ :=
  (argsort v).reverse

/-- Line 34 of the source: numpy astype(int) converts each floating centroid
channel by truncation toward zero. -/
def truncInt (q : ℚ) : ℤ :=
  Int.tdiv q.num q.den

/-- Python float formatting with format spec .0f: round to the nearest integer,
ties to even.  (Python rounds the exact binary value of the float; for the
in-range properties proved below the tie direction is irrelevant.) -/
def qround (q : ℚ) : ℤ :=
  if q - (⌊q⌋ : ℚ) < 1/2 then ⌊q⌋
  else if 1/2 < q - (⌊q⌋ : ℚ) then ⌊q⌋ + 1
  else if 2 ∣ ⌊q⌋ then ⌊q⌋ else ⌊q⌋ + 1

/-- One uppercase hexadecimal digit for a value in [0, 15] (the source formats with
02x and then applies .upper()). -/
def hexDigit (n : ℕ) : Char :=
  if n < 10 then Char.ofNat (48 + n) else Char.ofNat (55 + n)

/-- Two-digit uppercase hexadecimal of one channel value in [0, 255]. -/
def hex2 (n : ℤ) : String :=
  String.mk [hexDigit (n.toNat / 16 % 16), hexDigit (n.toNat % 16)]

/-- Line 50 of the source: the hex field. -/
def hexString (c : ℤ × ℤ × ℤ) : String :=
  "#" ++ hex2 c.1 ++ hex2 c.2.1 ++ hex2 c.2.2

/-- Line 51 of the source: the rgb field. -/
def rgbString (c : ℤ × ℤ × ℤ) : String :=
  "rgb(" ++ toString c.1 ++ ", " ++ toString c.2.1 ++ ", " ++ toString c.2.2 ++ ")"

/-- Largest channel (the maximum array of the colour-science RGB to HSL code). -/
def hslMx (r g b : ℚ) : ℚ := max r (max g b)

/-- Smallest channel. -/
def hslMn (r g b : ℚ) : ℚ := min r (min g b)

/-- The channel spread delta = maximum - minimum. -/
def hslDelta (r g b : ℚ) : ℚ := hslMx r g b - hslMn r g b

/-- Lightness: (maximum + minimum) / 2. -/
def lightOf (r g b : ℚ) : ℚ := (hslMx r g b + hslMn r g b) / 2

/-- Saturation, as computed by colour.RGB_to_HSL: 0 for zero spread, otherwise
delta over (maximum + minimum) below lightness one half and delta over
(2 - maximum - minimum) at or above it. -/
def satOf (r g b : ℚ) : ℚ :=
  if hslDelta r g b = 0 then 0
  else if lightOf r g b < 1/2 then hslDelta r g b / (hslMx r g b + hslMn r g b)
  else hslDelta r g b / (2 - (hslMx r g b + hslMn r g b))

/-- The per-channel quantity ((maximum - x) / 6 + delta / 2) / delta of the
colour-science hue computation. -/
def dChan (x r g b : ℚ) : ℚ :=
  ((hslMx r g b - x) / 6 + hslDelta r g b / 2) / hslDelta r g b

/-- The raw hue before wrap-around adjustment; the branches are selected the way
the np.where cascade resolves them: the blue-maximum case wins, then green, then
red. -/
def hueRaw (r g b : ℚ) : ℚ :=
  if b = hslMx r g b then 2/3 + dChan g r g b - dChan r r g b
  else if g = hslMx r g b then 1/3 + dChan r r g b - dChan b r g b
  else dChan b r g b - dChan g r g b

/-- Hue in [0, 1): 0 for zero spread, otherwise the raw hue shifted by one when it
falls outside [0, 1]. -/
def hueOf (r g b : ℚ) : ℚ :=
  if hslDelta r g b = 0 then 0
  else if hueRaw r g b < 0 then hueRaw r g b + 1
  else if hueRaw r g b > 1 then hueRaw r g b - 1
  else hueRaw r g b

/-- colour.RGB_to_HSL (line 54 of the source) on channels normalized to [0, 1]. -/
def RGB_to_HSL (r g b : ℚ) : ℚ × ℚ × ℚ :=
  (hueOf r g b, satOf r g b, lightOf r g b)

/-- Line 47 and 54: the HSL triple of an integer centroid, channels divided by
255 first. -/
def hslVals (c : ℤ × ℤ × ℤ) : ℚ × ℚ × ℚ :=
  RGB_to_HSL ((c.1 : ℚ) / 255) ((c.2.1 : ℚ) / 255) ((c.2.2 : ℚ) / 255)

/-- Line 55 of the source: the hsl field, hue scaled by 360 and saturation and
lightness by 100, each formatted with .0f. -/
def hslString (c : ℤ × ℤ × ℤ) : String :=
  "hsl(" ++ toString (qround ((hslVals c).1 * 360)) ++ ", " ++
    toString (qround ((hslVals c).2.1 * 100)) ++ "%, " ++
    toString (qround ((hslVals c).2.2 * 100)) ++ "%)"

/-- One element of the returned palette list (lines 57-62 of the source). -/
structure PaletteEntry where
  hex : String
  rgb : String
  hsl : String
  frequency : ℕ
  deriving DecidableEq

/-- Lines 57-62: the record appended for one ranked integer centroid. -/
def paletteEntryOf (c : ℤ × ℤ × ℤ) (freq : ℕ) : PaletteEntry :=
  { hex := hexString c, rgb := rgbString c, hsl := hslString c, frequency := freq }

/-- Lines 34-64 of the source, after the fit: truncate the centroids to integers,
count cluster populations with bincount, rank indices by descending population, and
format one palette entry per ranked index (the source indexes both the centroid
array and the count array with sorted_indices). -/
def extractPaletteCore (res : KMeansResult) : List PaletteEntry :=
  let centersInt := res.centers.map fun c => (truncInt c.1, truncInt c.2.1, truncInt c.2.2)
  let counts := bincount res.labels
  (sortedIndices counts).map fun j =>
    paletteEntryOf (centersInt.getD j (0, 0, 0)) (counts.getD j 0)

/-- Lines 7-68 of the source.  The decoded argument is the outcome of the PIL
decode-convert-thumbnail-reshape prefix (lines 13-15): none when the bytes are not
a valid image, some pixels otherwise; the catch-all handler of lines 66-68 turns
every internal failure into the return value None, modelled by propagating none.
The source default for num_colors is 10. -/
def extract_palette (km : KMeansImpl) (decoded : Option (List Pixel)) (num_colors : ℕ) :
    Option (List PaletteEntry) :=
  match decoded with
  | none => none
  | some pixels =>
    match km { n_clusters := actualNumColors num_colors pixels.dedup.length,
               random_state := 42, n_init := 10, max_iter := 300 } pixels with
    | none => none
    | some res => some (extractPaletteCore res)

instance (res : KMeansResult) (points : List Pixel) (k : ℕ) :
    Decidable (res.Valid points k) := by
  unfold KMeansResult.Valid; infer_instance

/-- The spec's description of the Color Formatter conversion step, for comparison
with the source: round each centroid channel to the nearest integer and clamp into
[0, 255].  Modelled from the spec, not from the source. -/
def specRoundClampChannel (q : ℚ) : ℤ :=
  max 0 (min 255 (qround q))

/-! ### Concrete fixtures

Small images together with exact k-means fits (each centroid is the arithmetic mean
of its cluster members, every cluster nonempty), used to instantiate the abstract
k-means collaborator in witnesses and counterexamples. -/

/-- A five-sample image with four distinct colors. -/
def pixA : List Pixel := [(0, 0, 0), (0, 0, 0), (9, 9, 9), (30, 30, 30), (255, 255, 255)]

/-- An exact four-cluster fit of pixA. -/
def resA4 : KMeansResult :=
  { centers := [((0:ℚ), (0:ℚ), (0:ℚ)), ((9:ℚ), (9:ℚ), (9:ℚ)), ((30:ℚ), (30:ℚ), (30:ℚ)),
      ((255:ℚ), (255:ℚ), (255:ℚ))]
  , labels := [0, 0, 1, 2, 3] }

/-- An exact three-cluster fit of pixA: the two darkest colors share a cluster
whose centroid is their mean (3, 3, 3). -/
def resA3 : KMeansResult :=
  { centers := [((3:ℚ), (3:ℚ), (3:ℚ)), ((30:ℚ), (30:ℚ), (30:ℚ)), ((255:ℚ), (255:ℚ), (255:ℚ))]
  , labels := [0, 0, 0, 1, 2] }

/-- A k-means collaborator answering for pixA at either cluster count. -/
def kmA : KMeansImpl := fun p _ =>
  if p.n_clusters = 4 then some resA4 else if p.n_clusters = 3 then some resA3 else none

/-- Twelve samples: ten reddish pixels whose mean red channel is 10.9, plus two
other colors. -/
def pixC5 : List Pixel :=
  [(10, 0, 0), (10, 0, 0), (10, 0, 0), (10, 0, 0), (10, 0, 0), (10, 0, 0), (10, 0, 0),
   (10, 0, 0), (10, 0, 0), (19, 0, 0), (200, 200, 200), (30, 140, 77)]

/-- An exact three-cluster fit of pixC5; the first centroid has the fractional red
channel 109/10 = 10.9. -/
def resC5 : KMeansResult :=
  { centers := [(mkRat 109 10, (0:ℚ), (0:ℚ)), ((200:ℚ), (200:ℚ), (200:ℚ)),
      ((30:ℚ), (140:ℚ), (77:ℚ))]
  , labels := [0, 0, 0, 0, 0, 0, 0, 0, 0, 0, 1, 2] }

/-- A k-means collaborator answering for pixC5. -/
def kmC5 : KMeansImpl := fun _ _ => some resC5

/-- Five samples with two tied dominant colors (two black, two white pixels) and a
third color. -/
def pixC6 : List Pixel := [(0, 0, 0), (0, 0, 0), (255, 255, 255), (255, 255, 255), (7, 7, 7)]

/-- An exact three-cluster fit of pixC6: clusters 0 (black) and 1 (white) both have
population two. -/
def resC6 : KMeansResult :=
  { centers := [((0:ℚ), (0:ℚ), (0:ℚ)), ((255:ℚ), (255:ℚ), (255:ℚ)), ((7:ℚ), (7:ℚ), (7:ℚ))]
  , labels := [0, 0, 1, 1, 2] }

/-- A k-means collaborator answering for pixC6. -/
def kmC6 : KMeansImpl := fun _ _ => some resC6

/-- Three samples of the single color (255, 0, 2), whose hue in degrees is
359.529..., which the .0f format rounds to 360. -/
def pixC7 : List Pixel := [(255, 0, 2), (255, 0, 2), (255, 0, 2)]

/-- A three-cluster fit of pixC7 (the floor of three clusters applies although only
one distinct color exists); every cluster is a singleton, so every centroid is
exactly (255, 0, 2). -/
def resC7 : KMeansResult :=
  { centers := [((255:ℚ), (0:ℚ), (2:ℚ)), ((255:ℚ), (0:ℚ), (2:ℚ)), ((255:ℚ), (0:ℚ), (2:ℚ))]
  , labels := [0, 1, 2] }

/-- A k-means collaborator answering for pixC7. -/
def kmC7 : KMeansImpl := fun _ _ => some resC7

/-! ### Numeric helper lemmas -/

/-- For a nonnegative rational, truncation toward zero agrees with the floor. -/
theorem truncInt_eq_floor (q : ℚ) (h : 0 ≤ q) : truncInt q = ⌊q⌋ := by
  unfold truncInt
  rw [Rat.floor_def]
  exact Int.tdiv_eq_ediv (Rat.num_nonneg.mpr h) (by positivity)

theorem truncInt_nonneg (q : ℚ) (h : 0 ≤ q) : 0 ≤ truncInt q := by
  rw [truncInt_eq_floor q h]
  exact Int.floor_nonneg.mpr h

theorem truncInt_le_255 (q : ℚ) (h0 : 0 ≤ q) (h : q ≤ 255) : truncInt q ≤ 255 := by
  rw [truncInt_eq_floor q h0]
  calc ⌊q⌋ ≤ ⌊(255 : ℚ)⌋ := Int.floor_le_floor h
  _ = 255 := by norm_num

theorem qround_nonneg (q : ℚ) (h : 0 ≤ q) : 0 ≤ qround q := by
  have hf : 0 ≤ ⌊q⌋ := Int.floor_nonneg.mpr h
  unfold qround
  split_ifs <;> omega

theorem qround_le_of_le (q : ℚ) (n : ℤ) (h : q ≤ (n : ℚ)) : qround q ≤ n := by
  have hf : ⌊q⌋ ≤ n := by
    calc ⌊q⌋ ≤ ⌊((n : ℚ))⌋ := Int.floor_le_floor h
    _ = n := Int.floor_intCast n
  have hfl : ((⌊q⌋ : ℤ) : ℚ) ≤ q := Int.floor_le q
  unfold qround
  split_ifs with h1 h2 h3
  · exact hf
  · have hlt : ((⌊q⌋ : ℤ) : ℚ) < (n : ℚ) := by linarith
    have : ⌊q⌋ < n := by exact_mod_cast hlt
    omega
  · exact hf
  · have heq : q - ((⌊q⌋ : ℤ) : ℚ) = 1/2 := le_antisymm (not_lt.mp h2) (not_lt.mp h1)
    have hlt : ((⌊q⌋ : ℤ) : ℚ) < (n : ℚ) := by linarith
    have : ⌊q⌋ < n := by exact_mod_cast hlt
    omega

/-! ### Hex format -/

/-- A decimal digit or an uppercase hexadecimal letter. -/
def isUpperHexDigit (c : Char) : Bool :=
  (('0' ≤ c) && (c ≤ '9')) || (('A' ≤ c) && (c ≤ 'F'))

/-- The shape of the regular expression from the spec, anchored: a single number
sign followed by exactly six uppercase hexadecimal digits. -/
def isHexFormat (s : String) : Bool :=
  match s.data with
  | '#' :: rest => (rest.length == 6) && rest.all isUpperHexDigit
  | _ => false

theorem hexDigit_valid : ∀ n : ℕ, n < 16 → isUpperHexDigit (hexDigit n) = true := by
  decide

theorem isHexFormat_hexString (c : ℤ × ℤ × ℤ) : isHexFormat (hexString c) = true := by
  obtain ⟨r, g, b⟩ := c
  have h1 := hexDigit_valid (r.toNat / 16 % 16) (Nat.mod_lt _ (by norm_num))
  have h2 := hexDigit_valid (r.toNat % 16) (Nat.mod_lt _ (by norm_num))
  have h3 := hexDigit_valid (g.toNat / 16 % 16) (Nat.mod_lt _ (by norm_num))
  have h4 := hexDigit_valid (g.toNat % 16) (Nat.mod_lt _ (by norm_num))
  have h5 := hexDigit_valid (b.toNat / 16 % 16) (Nat.mod_lt _ (by norm_num))
  have h6 := hexDigit_valid (b.toNat % 16) (Nat.mod_lt _ (by norm_num))
  unfold hexString hex2 isHexFormat
  simp [String.data_append, h1, h2, h3, h4, h5, h6]

/-! ### Bounds for the RGB to HSL conversion -/

theorem hslMn_le_hslMx (r g b : ℚ) : hslMn r g b ≤ hslMx r g b :=
  le_trans (min_le_left _ _) (le_max_left _ _)

theorem hslDelta_nonneg (r g b : ℚ) : 0 ≤ hslDelta r g b :=
  sub_nonneg.mpr (hslMn_le_hslMx r g b)

theorem hslMn_nonneg (r g b : ℚ) (hr : 0 ≤ r) (hg : 0 ≤ g) (hb : 0 ≤ b) :
    0 ≤ hslMn r g b :=
  le_min hr (le_min hg hb)

theorem hslMx_le_one (r g b : ℚ) (hr : r ≤ 1) (hg : g ≤ 1) (hb : b ≤ 1) :
    hslMx r g b ≤ 1 :=
  max_le hr (max_le hg hb)

theorem lightOf_bounds (r g b : ℚ) (hr0 : 0 ≤ r) (hr1 : r ≤ 1) (hg0 : 0 ≤ g) (hg1 : g ≤ 1)
    (hb0 : 0 ≤ b) (hb1 : b ≤ 1) : 0 ≤ lightOf r g b ∧ lightOf r g b ≤ 1 := by
  have h1 : 0 ≤ hslMn r g b := hslMn_nonneg r g b hr0 hg0 hb0
  have h2 : hslMx r g b ≤ 1 := hslMx_le_one r g b hr1 hg1 hb1
  have h3 : hslMn r g b ≤ hslMx r g b := hslMn_le_hslMx r g b
  unfold lightOf
  constructor
  · exact div_nonneg (by linarith) (by norm_num)
  · rw [div_le_one₀ (by norm_num)]
    linarith

theorem satOf_bounds (r g b : ℚ) (hr0 : 0 ≤ r) (hr1 : r ≤ 1) (hg0 : 0 ≤ g) (hg1 : g ≤ 1)
    (hb0 : 0 ≤ b) (hb1 : b ≤ 1) : 0 ≤ satOf r g b ∧ satOf r g b ≤ 1 := by
  have h1 : 0 ≤ hslMn r g b := hslMn_nonneg r g b hr0 hg0 hb0
  have h2 : hslMx r g b ≤ 1 := hslMx_le_one r g b hr1 hg1 hb1
  have h3 : hslMn r g b ≤ hslMx r g b := hslMn_le_hslMx r g b
  unfold satOf
  split_ifs with hd hl
  · exact ⟨le_refl 0, by norm_num⟩
  · have hdpos : 0 < hslDelta r g b :=
      lt_of_le_of_ne (hslDelta_nonneg r g b) (Ne.symm hd)
    have hmxpos : 0 < hslMx r g b := by
      by_contra hc
      push_neg at hc
      have : hslMx r g b = hslMn r g b := le_antisymm (le_trans hc h1) h3
      exact hd (by unfold hslDelta; linarith)
    have hden : 0 < hslMx r g b + hslMn r g b := by linarith
    refine ⟨div_nonneg (hslDelta_nonneg r g b) (le_of_lt hden), ?_⟩
    rw [div_le_one₀ hden]
    unfold hslDelta
    linarith
  · have hdpos : 0 < hslDelta r g b :=
      lt_of_le_of_ne (hslDelta_nonneg r g b) (Ne.symm hd)
    have hlt : hslMx r g b + hslMn r g b < 2 := by
      by_contra hc
      push_neg at hc
      have hx : hslMx r g b = 1 := le_antisymm h2 (by linarith)
      have hn : hslMn r g b = 1 := by linarith
      exact hd (by unfold hslDelta; rw [hx, hn]; ring)
    have hden : 0 < 2 - (hslMx r g b + hslMn r g b) := by linarith
    refine ⟨div_nonneg (hslDelta_nonneg r g b) (le_of_lt hden), ?_⟩
    rw [div_le_one₀ hden]
    unfold hslDelta
    linarith

theorem dChan_bounds (x r g b : ℚ) (hx1 : hslMn r g b ≤ x) (hx2 : x ≤ hslMx r g b)
    (hd : 0 < hslDelta r g b) : 1/2 ≤ dChan x r g b ∧ dChan x r g b ≤ 2/3 := by
  have hxd : hslMx r g b - x ≤ hslDelta r g b := by unfold hslDelta; linarith
  have hx0 : 0 ≤ hslMx r g b - x := by linarith
  unfold dChan
  constructor
  · rw [le_div_iff₀ hd]
    linarith
  · rw [div_le_iff₀ hd]
    linarith

theorem hueRaw_bounds (r g b : ℚ) (hd : 0 < hslDelta r g b) :
    -(1/6) ≤ hueRaw r g b ∧ hueRaw r g b ≤ 5/6 := by
  have hrn : hslMn r g b ≤ r := min_le_left _ _
  have hgn : hslMn r g b ≤ g := le_trans (min_le_right _ _) (min_le_left _ _)
  have hbn : hslMn r g b ≤ b := le_trans (min_le_right _ _) (min_le_right _ _)
  have hrx : r ≤ hslMx r g b := le_max_left _ _
  have hgx : g ≤ hslMx r g b := le_trans (le_max_left _ _) (le_max_right _ _)
  have hbx : b ≤ hslMx r g b := le_trans (le_max_right _ _) (le_max_right _ _)
  have hR := dChan_bounds r r g b hrn hrx hd
  have hG := dChan_bounds g r g b hgn hgx hd
  have hB := dChan_bounds b r g b hbn hbx hd
  unfold hueRaw
  split_ifs <;> constructor <;> linarith [hR.1, hR.2, hG.1, hG.2, hB.1, hB.2]

theorem hueOf_bounds (r g b : ℚ) : 0 ≤ hueOf r g b ∧ hueOf r g b < 1 := by
  unfold hueOf
  split_ifs with hd hneg hgt
  · norm_num
  · have hdpos : 0 < hslDelta r g b :=
      lt_of_le_of_ne (hslDelta_nonneg r g b) (Ne.symm hd)
    have hb := hueRaw_bounds r g b hdpos
    constructor <;> linarith [hb.1, hb.2]
  · have hdpos : 0 < hslDelta r g b :=
      lt_of_le_of_ne (hslDelta_nonneg r g b) (Ne.symm hd)
    have hb := hueRaw_bounds r g b hdpos
    constructor <;> linarith [hb.1, hb.2]
  · have hdpos : 0 < hslDelta r g b :=
      lt_of_le_of_ne (hslDelta_nonneg r g b) (Ne.symm hd)
    have hb := hueRaw_bounds r g b hdpos
    constructor <;> linarith [hb.1, hb.2]

/-- Channel normalization: an integer channel in [0, 255] divided by 255 lies in
[0, 1]. -/
theorem normChannel_bounds (x : ℤ) (h0 : 0 ≤ x) (h1 : x ≤ 255) :
    0 ≤ (x : ℚ) / 255 ∧ (x : ℚ) / 255 ≤ 1 := by
  have hx0 : (0 : ℚ) ≤ (x : ℚ) := by exact_mod_cast h0
  have hx1 : (x : ℚ) ≤ 255 := by exact_mod_cast h1
  constructor
  · positivity
  · rw [div_le_one₀ (by norm_num)]
    exact hx1

/-- The three integers printed in the hsl field are in range: hue in [0, 360],
saturation and lightness in [0, 100]. -/
theorem hslVals_printed_bounds (c : ℤ × ℤ × ℤ)
    (h1 : 0 ≤ c.1) (h2 : c.1 ≤ 255) (h3 : 0 ≤ c.2.1) (h4 : c.2.1 ≤ 255)
    (h5 : 0 ≤ c.2.2) (h6 : c.2.2 ≤ 255) :
    0 ≤ qround ((hslVals c).1 * 360) ∧ qround ((hslVals c).1 * 360) ≤ 360 ∧
    0 ≤ qround ((hslVals c).2.1 * 100) ∧ qround ((hslVals c).2.1 * 100) ≤ 100 ∧
    0 ≤ qround ((hslVals c).2.2 * 100) ∧ qround ((hslVals c).2.2 * 100) ≤ 100 := by
  obtain ⟨hr0, hr1⟩ := normChannel_bounds c.1 h1 h2
  obtain ⟨hg0, hg1⟩ := normChannel_bounds c.2.1 h3 h4
  obtain ⟨hb0, hb1⟩ := normChannel_bounds c.2.2 h5 h6
  have hH := hueOf_bounds ((c.1 : ℚ) / 255) ((c.2.1 : ℚ) / 255) ((c.2.2 : ℚ) / 255)
  have hS := satOf_bounds ((c.1 : ℚ) / 255) ((c.2.1 : ℚ) / 255) ((c.2.2 : ℚ) / 255)
    hr0 hr1 hg0 hg1 hb0 hb1
  have hL := lightOf_bounds ((c.1 : ℚ) / 255) ((c.2.1 : ℚ) / 255) ((c.2.2 : ℚ) / 255)
    hr0 hr1 hg0 hg1 hb0 hb1
  unfold hslVals RGB_to_HSL
  refine ⟨qround_nonneg _ (by nlinarith [hH.1]), qround_le_of_le _ 360 ?_,
    qround_nonneg _ (by nlinarith [hS.1]), qround_le_of_le _ 100 ?_,
    qround_nonneg _ (by nlinarith [hL.1]), qround_le_of_le _ 100 ?_⟩
  · push_cast
    nlinarith [hH.1, hH.2]
  · push_cast
    nlinarith [hS.1, hS.2]
  · push_cast
    nlinarith [hL.1, hL.2]

/-! ### Lemmas about bincount -/

theorem le_foldr_max (l : List ℕ) (a : ℕ) (h : a ∈ l) : a ≤ l.foldr max 0 := by
  induction l with
  | nil => cases h
  | cons x t ih =>
    rcases List.mem_cons.mp h with rfl | hm
    · exact le_max_left _ _
    · exact le_trans (ih hm) (le_max_right _ _)

theorem foldr_max_lt (l : List ℕ) (k : ℕ) (h : ∀ x ∈ l, x < k) (hk : 0 < k) :
    l.foldr max 0 < k := by
  induction l with
  | nil => simpa using hk
  | cons x t ih =>
    have hx : x < k := h x (List.mem_cons_self x t)
    have ht : ∀ y ∈ t, y < k := fun y hy => h y (List.mem_cons_of_mem _ hy)
    simpa [Nat.max_lt] using And.intro hx (ih ht)

theorem bincount_length (labels : List ℕ) (k : ℕ) (hlt : ∀ l ∈ labels, l < k)
    (hsur : ∀ j ∈ List.range k, j ∈ labels) (hk : 0 < k) :
    (bincount labels).length = k := by
  have hmem : k - 1 ∈ labels := hsur _ (List.mem_range.mpr (by omega))
  have hne : labels ≠ [] := by
    intro hc
    rw [hc] at hmem
    cases hmem
  unfold bincount
  rw [if_neg (by simpa [List.isEmpty_iff] using hne)]
  simp only [List.length_map, List.length_range]
  have hub : labels.foldr max 0 < k := foldr_max_lt labels k hlt hk
  have hlb : k - 1 ≤ labels.foldr max 0 := le_foldr_max labels _ hmem
  omega

theorem bincount_getD (labels : List ℕ) (j : ℕ) (hj : j < (bincount labels).length) :
    (bincount labels).getD j 0 = labels.count j := by
  unfold bincount at hj ⊢
  by_cases he : labels.isEmpty
  · rw [if_pos he] at hj
    cases hj
  · rw [if_neg he] at hj ⊢
    rw [List.getD_eq_getElem _ _ hj]
    simp

theorem sum_indicator (m a : ℕ) :
    ((List.range m).map fun j => if a = j then 1 else 0).sum = if a < m then 1 else 0 := by
  induction m with
  | zero => simp
  | succ n ih =>
    rw [List.range_succ, List.map_append, List.sum_append, ih]
    simp only [List.map_cons, List.map_nil, List.sum_cons, List.sum_nil]
    split_ifs <;> omega

theorem sum_range_count (labels : List ℕ) (m : ℕ) (h : ∀ x ∈ labels, x < m) :
    ((List.range m).map fun j => labels.count j).sum = labels.length := by
  induction labels with
  | nil => simp
  | cons a t ih =>
    have ha : a < m := h a (List.mem_cons_self a t)
    have ht : ∀ x ∈ t, x < m := fun x hx => h x (List.mem_cons_of_mem _ hx)
    simp only [List.count_cons, beq_iff_eq]
    rw [List.sum_map_add, ih ht, sum_indicator]
    simp [ha]

theorem bincount_sum (labels : List ℕ) : (bincount labels).sum = labels.length := by
  unfold bincount
  by_cases he : labels.isEmpty
  · rw [if_pos he]
    rw [List.isEmpty_iff] at he
    simp [he]
  · rw [if_neg he]
    exact sum_range_count labels _
      (fun x hx => Nat.lt_succ_of_le (le_foldr_max labels x hx))

/-! ### Lemmas about argsort and sortedIndices -/

instance (v : List ℕ) : IsTotal ℕ (argsortLe v) := by
  constructor
  intro a b
  unfold argsortLe
  rcases Nat.lt_trichotomy (v.getD a 0) (v.getD b 0) with h | h | h
  · exact Or.inl (Or.inl h)
  · rcases Nat.le_total a b with hab | hab
    · exact Or.inl (Or.inr ⟨h, hab⟩)
    · exact Or.inr (Or.inr ⟨h.symm, hab⟩)
  · exact Or.inr (Or.inl h)

instance (v : List ℕ) : IsTrans ℕ (argsortLe v) := by
  constructor
  intro a b c hab hbc
  unfold argsortLe at hab hbc ⊢
  rcases hab with h1 | ⟨h1, h2⟩ <;> rcases hbc with h3 | ⟨h3, h4⟩
  · exact Or.inl (lt_trans h1 h3)
  · exact Or.inl (h3 ▸ h1)
  · exact Or.inl (h1 ▸ h3)
  · exact Or.inr ⟨h1.trans h3, h2.trans h4⟩

theorem argsort_perm (v : List ℕ) : (argsort v).Perm (List.range v.length) :=
  List.perm_insertionSort _ _

theorem sortedIndices_perm (v : List ℕ) :
    (sortedIndices v).Perm (List.range v.length) :=
  (List.reverse_perm _).trans (argsort_perm v)

theorem sortedIndices_length (v : List ℕ) : (sortedIndices v).length = v.length := by
  have := (sortedIndices_perm v).length_eq
  simpa using this

theorem sortedIndices_mem_lt (v : List ℕ) (j : ℕ) (h : j ∈ sortedIndices v) :
    j < v.length :=
  List.mem_range.mp ((sortedIndices_perm v).mem_iff.mp h)

theorem sortedIndices_nodup (v : List ℕ) : (sortedIndices v).Nodup :=
  (sortedIndices_perm v).symm.nodup (List.nodup_range _)

theorem sortedIndices_sorted (v : List ℕ) :
    List.Pairwise (fun a b => argsortLe v b a) (sortedIndices v) := by
  unfold sortedIndices
  rw [List.pairwise_reverse]
  exact List.sorted_insertionSort (argsortLe v) (List.range v.length)

/-! ### Lemmas about the core pipeline -/

theorem extractPaletteCore_length (res : KMeansResult) (points : List Pixel) (k : ℕ)
    (hv : res.Valid points k) (hk : 0 < k) : (extractPaletteCore res).length = k := by
  obtain ⟨_, _, hlt, hsur, _⟩ := hv
  unfold extractPaletteCore
  simp only [List.length_map]
  rw [sortedIndices_length]
  exact bincount_length res.labels k hlt hsur hk

theorem extractPaletteCore_freq (res : KMeansResult) :
    (extractPaletteCore res).map (fun e => e.frequency) =
      (sortedIndices (bincount res.labels)).map
        (fun j => (bincount res.labels).getD j 0) := by
  unfold extractPaletteCore paletteEntryOf
  simp [List.map_map, Function.comp_def]

theorem map_getD_range (l : List ℕ) :
    (List.range l.length).map (fun j => l.getD j 0) = l := by
  apply List.ext_getElem (by simp)
  intro i h1 h2
  simp only [List.getElem_map, List.getElem_range]
  exact List.getD_eq_getElem l 0 h2

theorem extractPaletteCore_freq_sum (res : KMeansResult) :
    ((extractPaletteCore res).map (fun e => e.frequency)).sum = res.labels.length := by
  rw [extractPaletteCore_freq]
  have hperm := (sortedIndices_perm (bincount res.labels)).map
    (fun j => (bincount res.labels).getD j 0)
  rw [hperm.sum_eq]
  rw [show (List.range (bincount res.labels).length).map
        (fun j => (bincount res.labels).getD j 0) = bincount res.labels
      from map_getD_range _]
  exact bincount_sum res.labels

theorem extract_palette_run (km : KMeansImpl) (pixels : List Pixel) (n : ℕ)
    (res : KMeansResult)
    (hkm : km { n_clusters := actualNumColors n pixels.dedup.length, random_state := 42,
                n_init := 10, max_iter := 300 } pixels = some res) :
    extract_palette km (some pixels) n = some (extractPaletteCore res) := by
  have hstep : extract_palette km (some pixels) n =
      match km { n_clusters := actualNumColors n pixels.dedup.length, random_state := 42,
                 n_init := 10, max_iter := 300 } pixels with
      | none => none
      | some r => some (extractPaletteCore r) := rfl
  rw [hstep, hkm]

/-! ### The claims -/

/-- C1 (amended): the palette length equals max(3, min(requested, distinct, 15)).
Hence it always lies in [3, 15]; it is bounded by min(requested, 15) whenever the
request is at least 3, and bounded by the distinct-color count whenever at least 3
distinct colors exist.  (As literally stated the claim fails for requests below 3,
see the counterexample.) -/
theorem extract_palette_length_charac (km : KMeansImpl) (pixels : List Pixel) (n : ℕ)
    (res : KMeansResult)
    (hkm : km { n_clusters := actualNumColors n pixels.dedup.length, random_state := 42,
                n_init := 10, max_iter := 300 } pixels = some res)
    (hv : res.Valid pixels (actualNumColors n pixels.dedup.length)) :
    ∃ p, extract_palette km (some pixels) n = some p ∧
      p.length = actualNumColors n pixels.dedup.length ∧
      3 ≤ p.length ∧ p.length ≤ 15 ∧
      (3 ≤ n → p.length ≤ min n 15) ∧
      (3 ≤ pixels.dedup.length → p.length ≤ pixels.dedup.length) := by
  have hlen : (extractPaletteCore res).length = actualNumColors n pixels.dedup.length :=
    extractPaletteCore_length res pixels _ hv (by unfold actualNumColors; omega)
  refine ⟨_, extract_palette_run km pixels n res hkm, hlen, ?_, ?_, ?_, ?_⟩
  · rw [hlen]; unfold actualNumColors; omega
  · rw [hlen]; unfold actualNumColors; omega
  · intro h; rw [hlen]; unfold actualNumColors; omega
  · intro h; rw [hlen]; unfold actualNumColors; omega

/-- Witness for C1 (amended) at the concrete image pixA with its exact
four-cluster fit. -/
theorem extract_palette_length_charac_witness :
    ∃ p, extract_palette kmA (some pixA) 10 = some p ∧
      p.length = actualNumColors 10 pixA.dedup.length ∧
      3 ≤ p.length ∧ p.length ≤ 15 ∧
      (3 ≤ 10 → p.length ≤ min 10 15) ∧
      (3 ≤ pixA.dedup.length → p.length ≤ pixA.dedup.length) :=
  extract_palette_length_charac kmA pixA 10 resA4 (by decide) (by decide)

/-- C1 counterexample: pixA has 4 distinct colors, the three-cluster fit resA3 is a
legitimate k-means outcome, yet requesting a single color yields a palette of
length 3, violating the claimed bound len ≤ min(requested, 15) = 1. -/
theorem extract_palette_length_cex :
    pixA.dedup.length = 4 ∧
    resA3.Valid pixA 3 ∧
    (extract_palette kmA (some pixA) 1).map List.length = some 3 ∧
    ¬ (3 ≤ min 1 15) :=
  ⟨by decide, by decide, by decide, by decide⟩

/-- C2: determinism.  The pipeline consults its k-means collaborator only at
random_state 42, n_init 10 and max_iter 300, so any two runs whose clustering
libraries agree on that fixed configuration produce identical palettes; in
particular two calls of the same pure function agree. -/
theorem extract_palette_deterministic (km1 km2 : KMeansImpl) (d : Option (List Pixel))
    (n : ℕ)
    (h : ∀ p pts, p.random_state = 42 → p.n_init = 10 → p.max_iter = 300 →
      km1 p pts = km2 p pts) :
    extract_palette km1 d n = extract_palette km2 d n := by
  cases d with
  | none => rfl
  | some pixels =>
    have hstep1 : extract_palette km1 (some pixels) n =
        match km1 { n_clusters := actualNumColors n pixels.dedup.length, random_state := 42,
                    n_init := 10, max_iter := 300 } pixels with
        | none => none
        | some r => some (extractPaletteCore r) := rfl
    have hstep2 : extract_palette km2 (some pixels) n =
        match km2 { n_clusters := actualNumColors n pixels.dedup.length, random_state := 42,
                    n_init := 10, max_iter := 300 } pixels with
        | none => none
        | some r => some (extractPaletteCore r) := rfl
    rw [hstep1, hstep2,
      h { n_clusters := actualNumColors n pixels.dedup.length, random_state := 42,
          n_init := 10, max_iter := 300 } pixels rfl rfl rfl]

/-- Witness for C2 at the concrete image pixA. -/
theorem extract_palette_deterministic_witness :
    extract_palette kmA (some pixA) 10 = extract_palette kmA (some pixA) 10 :=
  extract_palette_deterministic kmA kmA (some pixA) 10 (fun _ _ _ _ _ => rfl)

/-- C3: frequency conservation.  The frequency fields of a successful extraction
sum to the number of pixels of the resized image (the label list has one entry per
original pixel and the ranked index list is a permutation of all cluster
indices). -/
theorem extract_palette_frequency_conservation (km : KMeansImpl) (pixels : List Pixel)
    (n : ℕ) (res : KMeansResult)
    (hkm : km { n_clusters := actualNumColors n pixels.dedup.length, random_state := 42,
                n_init := 10, max_iter := 300 } pixels = some res)
    (hv : res.Valid pixels (actualNumColors n pixels.dedup.length)) :
    ∃ p, extract_palette km (some pixels) n = some p ∧
      (p.map fun e => e.frequency).sum = pixels.length := by
  refine ⟨_, extract_palette_run km pixels n res hkm, ?_⟩
  rw [extractPaletteCore_freq_sum]
  exact hv.2.1

/-- Witness for C3 at the concrete image pixA (five pixels, frequencies
2 + 1 + 1 + 1). -/
theorem extract_palette_frequency_conservation_witness :
    ∃ p, extract_palette kmA (some pixA) 10 = some p ∧
      (p.map fun e => e.frequency).sum = pixA.length :=
  extract_palette_frequency_conservation kmA pixA 10 resA4 (by decide) (by decide)

/-- C4: rank monotonicity.  A successful extraction is ordered by
descending frequency: for positions i < j the frequency at j is at most the
frequency at i. -/
theorem extract_palette_rank_monotone (km : KMeansImpl) (pixels : List Pixel)
    (n : ℕ) (res : KMeansResult)
    (hkm : km { n_clusters := actualNumColors n pixels.dedup.length, random_state := 42,
                n_init := 10, max_iter := 300 } pixels = some res)
    (_hv : res.Valid pixels (actualNumColors n pixels.dedup.length)) :
    ∃ p, extract_palette km (some pixels) n = some p ∧
      ∀ i j (hi : i < p.length) (hj : j < p.length), i < j →
        (p.get ⟨j, hj⟩).frequency ≤ (p.get ⟨i, hi⟩).frequency := by
  refine ⟨_, extract_palette_run km pixels n res hkm, ?_⟩
  have hpw : List.Pairwise (fun a b => b.frequency ≤ a.frequency)
      (extractPaletteCore res) := by
    simp only [extractPaletteCore]
    rw [List.pairwise_map]
    refine (sortedIndices_sorted (bincount res.labels)).imp ?_
    intro a b hab
    simp only [paletteEntryOf]
    rcases hab with h | ⟨h, _⟩
    · exact le_of_lt h
    · exact le_of_eq h
  intro i j hi hj hij
  exact List.pairwise_iff_get.mp hpw ⟨i, hi⟩ ⟨j, hj⟩ hij

/-- Witness for C4 at the concrete image pixA (frequencies 2, 1, 1, 1). -/
theorem extract_palette_rank_monotone_witness :
    ∃ p, extract_palette kmA (some pixA) 10 = some p ∧
      ∀ i j (hi : i < p.length) (hj : j < p.length), i < j →
        (p.get ⟨j, hj⟩).frequency ≤ (p.get ⟨i, hi⟩).frequency :=
  extract_palette_rank_monotone kmA pixA 10 resA4 (by decide) (by decide)

/-- Every palette entry of a valid run is the formatted record of the truncated
channels of some centroid of the fit. -/
theorem extractPaletteCore_mem (res : KMeansResult) (points : List Pixel) (k : ℕ)
    (hv : res.Valid points k) (hk : 0 < k) :
    ∀ e ∈ extractPaletteCore res, ∃ q, q ∈ res.centers ∧ ∃ fr,
      e = paletteEntryOf (truncInt q.1, truncInt q.2.1, truncInt q.2.2) fr := by
  intro e he
  obtain ⟨h1, _, hlt, hsur, _⟩ := hv
  simp only [extractPaletteCore] at he
  rw [List.mem_map] at he
  obtain ⟨j, hjmem, rfl⟩ := he
  have hjlt : j < (bincount res.labels).length := sortedIndices_mem_lt _ j hjmem
  have hblen : (bincount res.labels).length = k := bincount_length res.labels k hlt hsur hk
  have hjc : j < res.centers.length := by omega
  refine ⟨res.centers[j], List.getElem_mem hjc, (bincount res.labels).getD j 0, ?_⟩
  congr 1
  rw [List.getD_eq_getElem _ _ (by simpa using hjc)]
  simp

/-- C5 (amended): the Color Formatter converts every floating centroid channel by
truncation toward zero (numpy astype(int)), not by rounding; no clamping is
applied and none is needed, because centroids of the fit lie in [0, 255], so the
truncated channels are again in [0, 255].  The hex, rgb and hsl strings are all
built from these truncated channels. -/
theorem extract_palette_trunc_conversion (km : KMeansImpl) (pixels : List Pixel)
    (n : ℕ) (res : KMeansResult)
    (hkm : km { n_clusters := actualNumColors n pixels.dedup.length, random_state := 42,
                n_init := 10, max_iter := 300 } pixels = some res)
    (hv : res.Valid pixels (actualNumColors n pixels.dedup.length)) :
    ∃ p, extract_palette km (some pixels) n = some p ∧
      ∀ e ∈ p, ∃ q, q ∈ res.centers ∧ ∃ fr,
        e = paletteEntryOf (truncInt q.1, truncInt q.2.1, truncInt q.2.2) fr ∧
        truncInt q.1 = ⌊q.1⌋ ∧ truncInt q.2.1 = ⌊q.2.1⌋ ∧ truncInt q.2.2 = ⌊q.2.2⌋ ∧
        0 ≤ truncInt q.1 ∧ truncInt q.1 ≤ 255 ∧
        0 ≤ truncInt q.2.1 ∧ truncInt q.2.1 ≤ 255 ∧
        0 ≤ truncInt q.2.2 ∧ truncInt q.2.2 ≤ 255 := by
  refine ⟨_, extract_palette_run km pixels n res hkm, ?_⟩
  intro e he
  obtain ⟨q, hqmem, fr, rfl⟩ :=
    extractPaletteCore_mem res pixels _ hv (by unfold actualNumColors; omega) e he
  obtain ⟨hq1, hq2, hq3, hq4, hq5, hq6⟩ := hv.2.2.2.2 q hqmem
  exact ⟨q, hqmem, fr, rfl, truncInt_eq_floor _ hq1, truncInt_eq_floor _ hq3,
    truncInt_eq_floor _ hq5, truncInt_nonneg _ hq1, truncInt_le_255 _ hq1 hq2,
    truncInt_nonneg _ hq3, truncInt_le_255 _ hq3 hq4,
    truncInt_nonneg _ hq5, truncInt_le_255 _ hq5 hq6⟩

/-- Witness for C5 (amended) at the concrete image pixA. -/
theorem extract_palette_trunc_conversion_witness :
    ∃ p, extract_palette kmA (some pixA) 10 = some p ∧
      ∀ e ∈ p, ∃ q, q ∈ resA4.centers ∧ ∃ fr,
        e = paletteEntryOf (truncInt q.1, truncInt q.2.1, truncInt q.2.2) fr ∧
        truncInt q.1 = ⌊q.1⌋ ∧ truncInt q.2.1 = ⌊q.2.1⌋ ∧ truncInt q.2.2 = ⌊q.2.2⌋ ∧
        0 ≤ truncInt q.1 ∧ truncInt q.1 ≤ 255 ∧
        0 ≤ truncInt q.2.1 ∧ truncInt q.2.1 ≤ 255 ∧
        0 ≤ truncInt q.2.2 ∧ truncInt q.2.2 ≤ 255 :=
  extract_palette_trunc_conversion kmA pixA 10 resA4 (by decide) (by decide)

/-- C5 counterexample: on the twelve-pixel image pixC5, an exact fit has a
centroid with red channel 109/10 = 10.9.  The source truncates it to 10 and emits
the hex string starting 0A, while the rounding-and-clamping conversion described
by the spec yields 11, whose hex string starts 0B. -/
theorem astype_truncation_cex :
    resC5.Valid pixC5 3 ∧
    actualNumColors 3 pixC5.dedup.length = 3 ∧
    (extract_palette kmC5 (some pixC5) 3).map (fun l => l.map fun e => e.hex) =
      some ["#0A0000", "#1E8C4D", "#C8C8C8"] ∧
    truncInt (mkRat 109 10) = 10 ∧
    specRoundClampChannel (mkRat 109 10) = 11 ∧
    hexString (11, 0, 0) = "#0B0000" ∧
    ("#0A0000" : String) ≠ "#0B0000" := by
  refine ⟨by decide, by decide, by decide, by decide, ?_, by decide, by decide⟩
  rw [Rat.mkRat_eq_div]
  unfold specRoundClampChannel qround
  norm_num

/-- C6 (amended): the ranked order of cluster indices is fully determined: by
population descending and, for equal populations, by original cluster index
descending (np.argsort sorts ascending and stably, and the subsequent reversal on
line 41 turns stable ascending ties into descending index order). -/
theorem sortedIndices_rank_order (v : List ℕ) :
    List.Pairwise (fun a b => v.getD b 0 < v.getD a 0 ∨
      (v.getD a 0 = v.getD b 0 ∧ b < a)) (sortedIndices v) := by
  have h1 := sortedIndices_sorted v
  have h2 : List.Pairwise (fun a b => a ≠ b) (sortedIndices v) := sortedIndices_nodup v
  refine (h1.and h2).imp ?_
  intro a b hab
  obtain ⟨hle, hne⟩ := hab
  rcases hle with h | ⟨h, hba⟩
  · exact Or.inl h
  · exact Or.inr ⟨h.symm, lt_of_le_of_ne hba (fun hc => hne hc.symm)⟩

/-- C6 counterexample: on pixC6, clusters 0 (black) and 1 (white) both have
population 2, and the palette lists the white cluster (original index 1) before
the black cluster (original index 0): equal populations are ordered by descending
original index, not ascending. -/
theorem tie_order_cex :
    resC6.Valid pixC6 3 ∧
    bincount resC6.labels = [2, 2, 1] ∧
    sortedIndices (bincount resC6.labels) = [1, 0, 2] ∧
    (extract_palette kmC6 (some pixC6) 10).map
        (fun l => l.map fun e => (e.hex, e.frequency)) =
      some [("#FFFFFF", 2), ("#000000", 2), ("#070707", 1)] :=
  ⟨by decide, by decide, by decide, by decide⟩

/-- C7 (amended): every entry of a successful extraction is format-valid: the hex
string matches the anchored pattern of a number sign and six uppercase hex digits,
the rgb string carries exactly the same integer channels (both strings are built
from one channel triple lying in [0, 255]), and the three integers printed in the
hsl string satisfy hue in [0, 360] and saturation and lightness in [0, 100].  (The
hue bound 360 is attained: a rounded 360 is printed as such, not wrapped to 0, see
the counterexample.) -/
theorem extract_palette_format_validity (km : KMeansImpl) (pixels : List Pixel)
    (n : ℕ) (res : KMeansResult)
    (hkm : km { n_clusters := actualNumColors n pixels.dedup.length, random_state := 42,
                n_init := 10, max_iter := 300 } pixels = some res)
    (hv : res.Valid pixels (actualNumColors n pixels.dedup.length)) :
    ∃ p, extract_palette km (some pixels) n = some p ∧
      ∀ e ∈ p, ∃ c : ℤ × ℤ × ℤ,
        0 ≤ c.1 ∧ c.1 ≤ 255 ∧ 0 ≤ c.2.1 ∧ c.2.1 ≤ 255 ∧ 0 ≤ c.2.2 ∧ c.2.2 ≤ 255 ∧
        e.hex = hexString c ∧ isHexFormat e.hex = true ∧ e.rgb = rgbString c ∧
        e.hsl = hslString c ∧
        0 ≤ qround ((hslVals c).1 * 360) ∧ qround ((hslVals c).1 * 360) ≤ 360 ∧
        0 ≤ qround ((hslVals c).2.1 * 100) ∧ qround ((hslVals c).2.1 * 100) ≤ 100 ∧
        0 ≤ qround ((hslVals c).2.2 * 100) ∧ qround ((hslVals c).2.2 * 100) ≤ 100 := by
  refine ⟨_, extract_palette_run km pixels n res hkm, ?_⟩
  intro e he
  obtain ⟨q, hqmem, fr, rfl⟩ :=
    extractPaletteCore_mem res pixels _ hv (by unfold actualNumColors; omega) e he
  obtain ⟨hq1, hq2, hq3, hq4, hq5, hq6⟩ := hv.2.2.2.2 q hqmem
  have hc1 : 0 ≤ truncInt q.1 := truncInt_nonneg _ hq1
  have hc2 : truncInt q.1 ≤ 255 := truncInt_le_255 _ hq1 hq2
  have hc3 : 0 ≤ truncInt q.2.1 := truncInt_nonneg _ hq3
  have hc4 : truncInt q.2.1 ≤ 255 := truncInt_le_255 _ hq3 hq4
  have hc5 : 0 ≤ truncInt q.2.2 := truncInt_nonneg _ hq5
  have hc6 : truncInt q.2.2 ≤ 255 := truncInt_le_255 _ hq5 hq6
  have hb := hslVals_printed_bounds (truncInt q.1, truncInt q.2.1, truncInt q.2.2)
    hc1 hc2 hc3 hc4 hc5 hc6
  exact ⟨(truncInt q.1, truncInt q.2.1, truncInt q.2.2), hc1, hc2, hc3, hc4, hc5, hc6,
    rfl, isHexFormat_hexString _, rfl, rfl, hb.1, hb.2.1, hb.2.2.1, hb.2.2.2.1,
    hb.2.2.2.2.1, hb.2.2.2.2.2⟩

/-- Witness for C7 (amended) at the concrete image pixA. -/
theorem extract_palette_format_validity_witness :
    ∃ p, extract_palette kmA (some pixA) 10 = some p ∧
      ∀ e ∈ p, ∃ c : ℤ × ℤ × ℤ,
        0 ≤ c.1 ∧ c.1 ≤ 255 ∧ 0 ≤ c.2.1 ∧ c.2.1 ≤ 255 ∧ 0 ≤ c.2.2 ∧ c.2.2 ≤ 255 ∧
        e.hex = hexString c ∧ isHexFormat e.hex = true ∧ e.rgb = rgbString c ∧
        e.hsl = hslString c ∧
        0 ≤ qround ((hslVals c).1 * 360) ∧ qround ((hslVals c).1 * 360) ≤ 360 ∧
        0 ≤ qround ((hslVals c).2.1 * 100) ∧ qround ((hslVals c).2.1 * 100) ≤ 100 ∧
        0 ≤ qround ((hslVals c).2.2 * 100) ∧ qround ((hslVals c).2.2 * 100) ≤ 100 :=
  extract_palette_format_validity kmA pixA 10 resA4 (by decide) (by decide)

/-- C7 counterexample: on pixC7, every cluster centroid is (255, 0, 2), whose hue
is 359.529... degrees; the .0f format rounds it to 360 and the hsl strings of the
returned palette read hsl(360, 100%, 50%): the printed hue reaches 360 and is not
wrapped to 0. -/
theorem hue_rounds_to_360_cex :
    resC7.Valid pixC7 3 ∧
    (extract_palette kmC7 (some pixC7) 10).map (fun l => l.map fun e => e.hsl) =
      some [hslString (255, 0, 2), hslString (255, 0, 2), hslString (255, 0, 2)] ∧
    hslString (255, 0, 2) = "hsl(360, 100%, 50%)" ∧
    qround ((hslVals (255, 0, 2)).1 * 360) = 360 := by
  have hH : (hslVals ((255:ℤ), (0:ℤ), (2:ℤ))).1 = 1528/1530 := by
    unfold hslVals RGB_to_HSL hueOf hueRaw dChan hslDelta hslMx hslMn
    norm_num
  have hS : (hslVals ((255:ℤ), (0:ℤ), (2:ℤ))).2.1 = 1 := by
    unfold hslVals RGB_to_HSL satOf lightOf hslDelta hslMx hslMn
    norm_num
  have hL : (hslVals ((255:ℤ), (0:ℤ), (2:ℤ))).2.2 = 1/2 := by
    unfold hslVals RGB_to_HSL lightOf hslMx hslMn
    norm_num
  have h360 : qround ((1528:ℚ)/1530 * 360) = 360 := by
    unfold qround
    norm_num
  have h100 : qround ((1:ℚ) * 100) = 100 := by
    unfold qround
    norm_num
  have h50 : qround ((1/2:ℚ) * 100) = 50 := by
    unfold qround
    norm_num
  refine ⟨by decide, rfl, ?_, ?_⟩
  · unfold hslString
    rw [hH, hS, hL, h360, h100, h50]
    decide
  · rw [hH]
    exact h360

/-- C8: the k-means collaborator is invoked on the full, non-deduplicated sample
list; the deduplicated list enters the computation only through its length, which
bounds the cluster count.  Moreover the deduplicated list is never longer than the
sample list. -/
theorem extract_palette_fits_full_sampleset (km : KMeansImpl) (pixels : List Pixel)
    (n : ℕ) :
    extract_palette km (some pixels) n =
      Option.map extractPaletteCore
        (km { n_clusters := actualNumColors n pixels.dedup.length, random_state := 42,
              n_init := 10, max_iter := 300 } pixels) ∧
    pixels.dedup.length ≤ pixels.length := by
  constructor
  · have hstep : extract_palette km (some pixels) n =
        match km { n_clusters := actualNumColors n pixels.dedup.length, random_state := 42,
                   n_init := 10, max_iter := 300 } pixels with
        | none => none
        | some r => some (extractPaletteCore r) := rfl
    rw [hstep]
    cases km { n_clusters := actualNumColors n pixels.dedup.length, random_state := 42,
               n_init := 10, max_iter := 300 } pixels with
    | none => rfl
    | some r => rfl
  · exact (List.dedup_sublist pixels).length_le

/-- C9: a failed decode (invalid image bytes) yields the failure value and no
palette, and the result of any call is either a failure or a complete palette
list, never anything partial. -/
theorem extract_palette_invalid_input (km : KMeansImpl) (n : ℕ) :
    extract_palette km none n = none ∧
    ∀ d : Option (List Pixel), extract_palette km d n = none ∨
      ∃ p, extract_palette km d n = some p := by
  refine ⟨rfl, fun d => ?_⟩
  cases h : extract_palette km d n with
  | none => exact Or.inl rfl
  | some p => exact Or.inr ⟨p, rfl⟩

/-- C10: the catch-all handler: every internal failure (decode failure or a
clustering exception) makes the function return the bare failure value None,
carrying no message, and the returned value is always either None or a list of
palette entries. -/
theorem extract_palette_catch_all (km : KMeansImpl) (d : Option (List Pixel)) (n : ℕ) :
    (extract_palette km d n = none ∨ ∃ p, extract_palette km d n = some p) ∧
    (d = none → extract_palette km d n = none) ∧
    ∀ pixels, d = some pixels →
      km { n_clusters := actualNumColors n pixels.dedup.length, random_state := 42,
           n_init := 10, max_iter := 300 } pixels = none →
      extract_palette km d n = none := by
  refine ⟨?_, ?_, ?_⟩
  · cases h : extract_palette km d n with
    | none => exact Or.inl rfl
    | some p => exact Or.inr ⟨p, rfl⟩
  · rintro rfl
    rfl
  · rintro pixels rfl hkm
    have hstep : extract_palette km (some pixels) n =
        match km { n_clusters := actualNumColors n pixels.dedup.length, random_state := 42,
                   n_init := 10, max_iter := 300 } pixels with
        | none => none
        | some r => some (extractPaletteCore r) := rfl
    rw [hstep, hkm]

/-- A k-means collaborator whose fit always raises (modelled as none), exercising
the clustering-failure branch of the catch-all handler. -/
def kmFail : KMeansImpl := fun _ _ => none

/-- Witness for C10 at a concrete run whose clustering call fails: the
clustering-failure implication of the theorem fires with its hypotheses
discharged (kmFail really answers none here), and the call returns the bare
failure value. -/
theorem extract_palette_catch_all_witness :
    extract_palette kmFail (some [(5, 5, 5)]) 10 = none ∧
    (extract_palette kmFail (some [(5, 5, 5)]) 10 = none ∨
      ∃ p, extract_palette kmFail (some [(5, 5, 5)]) 10 = some p) ∧
    (some [((5:ℕ), (5:ℕ), (5:ℕ))] = none →
      extract_palette kmFail (some [(5, 5, 5)]) 10 = none) ∧
    ∀ pixels, some [((5:ℕ), (5:ℕ), (5:ℕ))] = some pixels →
      kmFail { n_clusters := actualNumColors 10 pixels.dedup.length, random_state := 42,
               n_init := 10, max_iter := 300 } pixels = none →
      extract_palette kmFail (some [(5, 5, 5)]) 10 = none :=
  ⟨(extract_palette_catch_all kmFail (some [(5, 5, 5)]) 10).2.2 [(5, 5, 5)] rfl rfl,
   extract_palette_catch_all kmFail (some [(5, 5, 5)]) 10⟩

end ImageToPalette
